import Mathlib

/-!
Verification of the COCO dataset conversion/extraction utilities
(`coco-to-sqlite-convert.py` and `extract-subset-from-sqlite.py`).

The Python code is shallowly embedded: JSON values become the inductive
type `JVal` (with arbitrary-precision decimals, ints and floats kept as
distinct numeric leaves, numerically modelled by exact rationals), the
SQLite tables become Lean lists of row structures, and the two scripts'
side effects (row inserts, commits, file writes, warnings) become
explicit event lists returned by the embedded functions.
-/

/-- Model of a parsed JSON value as produced by the `ijson` streaming
decoder: `jdec` is an arbitrary-precision `Decimal` leaf (ijson yields
JSON reals as `Decimal`), `jint` an integer leaf, `jfloat` a standard
float leaf (as produced by `float(...)` conversion).  Numeric leaves are
modelled by exact rationals. -/
inductive JVal where
  | jnull : JVal
  | jbool (b : Bool) : JVal
  | jint (n : ℤ) : JVal
  | jfloat (q : ℚ) : JVal
  | jdec (q : ℚ) : JVal
  | jstr (s : String) : JVal
  | jarr (xs : List JVal) : JVal
  | jobj (fields : List (String × JVal)) : JVal

mutual

/-- Embedding of `normalize_json_numbers` (coco-to-sqlite-convert.py,
lines 194-205): recursively convert `Decimal` leaves to `float`,
rebuild lists and dicts, and leave every other value unchanged. -/
def normalize_json_numbers : JVal → JVal
  | .jdec q => .jfloat q
  | .jarr xs => .jarr (normalizeList xs)
  | .jobj fs => .jobj (normalizeObj fs)
  | v => v

/-- The list comprehension `[normalize_json_numbers(x) for x in obj]`. -/
def normalizeList : List JVal → List JVal
  | [] => []
  | x :: xs => normalize_json_numbers x :: normalizeList xs

/-- The dict comprehension `{k: normalize_json_numbers(v) for k, v in obj.items()}`. -/
def normalizeObj : List (String × JVal) → List (String × JVal)
  | [] => []
  | (k, v) :: fs => (k, normalize_json_numbers v) :: normalizeObj fs

end

mutual

/-- A value is serializable by Python's `json.dumps` exactly when it
contains no `Decimal` leaf (`json.dumps` raises `TypeError` on
`Decimal`). -/
def noDecimals : JVal → Bool
  | .jdec _ => false
  | .jarr xs => noDecimalsList xs
  | .jobj fs => noDecimalsObj fs
  | _ => true

def noDecimalsList : List JVal → Bool
  | [] => true
  | x :: xs => noDecimals x && noDecimalsList xs

def noDecimalsObj : List (String × JVal) → Bool
  | [] => true
  | (_, v) :: fs => noDecimals v && noDecimalsObj fs

end

/-- Numeric value of a JSON numeric leaf (`none` for non-numeric values). -/
def JVal.numQ? : JVal → Option ℚ
  | .jint n => some (n : ℚ)
  | .jfloat q => some q
  | .jdec q => some q
  | _ => none

/-- Model of a TEXT column holding a serialized JSON document.
`jsonOf v` is the output of `json.dumps` on `v` (for values without
`Decimal` leaves, `json.loads` recovers exactly `v`); `badText s` is
stored text on which `json.loads` raises. -/
inductive Stored where
  | jsonOf (v : JVal) : Stored
  | badText (s : String) : Stored

/-- Embedding of `json.dumps` as used on normalized bbox/segmentation. -/
def dumps (v : JVal) : Stored := .jsonOf v

/-- Embedding of `json.loads` on a stored TEXT field: `none` models a
raised decode exception. -/
def loads : Stored → Option JVal
  | .jsonOf v => some v
  | .badText _ => none

/-- A row of the `categories` table (id, name, supercategory). -/
structure CatRow where
  id : ℤ
  name : String
  supercategory : String
deriving DecidableEq

/-- A row of the `images` table.  `none` in an optional column models
SQL NULL (inserted when the source key is absent, via `img.get(...)`). -/
structure ImageRow where
  id : ℤ
  file_name : String
  width : ℤ
  height : ℤ
  license : Option ℤ
  flickr_url : Option String
  coco_url : Option String
  date_captured : Option String
deriving DecidableEq

/-- A row of the `annotations` table; `bbox` and `segmentation` are
TEXT-serialized JSON, `area` is a REAL (modelled by an exact rational). -/
structure AnnRow where
  id : ℤ
  image_id : ℤ
  category_id : ℤ
  bbox : Stored
  area : ℚ
  iscrowd : ℤ
  segmentation : Stored

/-- The relational store after ingestion: the three tables as row lists
in insertion order. -/
structure Store where
  images : List ImageRow
  anns : List AnnRow
  categories : List CatRow

/-- A numeric scalar as it appears in the source JSON (`int`, `Decimal`
or `float`), used for the `area` field. -/
inductive JNum where
  | int (n : ℤ) : JNum
  | dec (q : ℚ) : JNum
  | flt (q : ℚ) : JNum

/-- Python's `float(...)` coercion on a JSON numeric scalar. -/
def JNum.toFloat : JNum → ℚ
  | .int n => (n : ℚ)
  | .dec q => q
  | .flt q => q

/-- A source-document category element.  `supercategory = none` models
an absent key (read via `cat.get("supercategory", "")`). -/
structure SrcCategory where
  id : ℤ
  name : String
  supercategory : Option String
deriving DecidableEq

/-- A source-document image element; optional keys are read with
`img.get(...)` and hence default to NULL when absent. -/
structure SrcImage where
  id : ℤ
  file_name : String
  width : ℤ
  height : ℤ
  license : Option ℤ
  flickr_url : Option String
  coco_url : Option String
  date_captured : Option String
deriving DecidableEq

/-- A source-document annotation element.  `bbox`, `segmentation`,
`area` and `iscrowd` model `ann.get(key, default)` with `none` for an
absent key; `id`, `image_id`, `category_id` are required keys whose
values are integers (the `int(...)` coercion in the source is the
identity on them). -/
structure SrcAnn where
  id : ℤ
  image_id : ℤ
  category_id : ℤ
  bbox : Option JVal
  area : Option JNum
  iscrowd : Option ℤ
  segmentation : Option JVal

/-- A source COCO document: the three top-level arrays the scripts read. -/
structure SrcDoc where
  images : List SrcImage
  anns : List SrcAnn
  categories : List SrcCategory

/-- Dropping leading whitespace characters. -/
def dropLeadingWs : List Char → List Char
  | [] => []
  | ch :: rest => if ch.isWhitespace then dropLeadingWs rest else ch :: rest

/-- Embedding of Python's `str.strip()`: remove leading and trailing
whitespace. -/
def pyStrip (s : String) : String :=
  String.mk ((dropLeadingWs (dropLeadingWs s.data).reverse).reverse)

/-- Row built by `stream_categories` (coco-to-sqlite-convert.py, lines
61-88): `(cat["id"], cat["name"].strip(), cat.get("supercategory", ""))`. -/
def ingestCategory (c : SrcCategory) : CatRow :=
  { id := c.id, name := pyStrip c.name, supercategory := c.supercategory.getD "" }

/-- Row built by `stream_images` (coco-to-sqlite-convert.py, lines
91-131): all eight fields are passed through unchanged. -/
def ingestImage (i : SrcImage) : ImageRow :=
  { id := i.id, file_name := i.file_name, width := i.width, height := i.height,
    license := i.license, flickr_url := i.flickr_url, coco_url := i.coco_url,
    date_captured := i.date_captured }

/-- Row built by `stream_annotations` (coco-to-sqlite-convert.py, lines
134-179): bbox and segmentation default to `[]`, are passed through
`normalize_json_numbers` and serialized with `json.dumps`; `area`
defaults to `0.0` and is coerced with `float(...)`; `iscrowd` defaults
to `0` and is coerced with `int(...)`. -/
def ingestAnn (a : SrcAnn) : AnnRow :=
  { id := a.id, image_id := a.image_id, category_id := a.category_id,
    bbox := dumps (normalize_json_numbers (a.bbox.getD (.jarr []))),
    area := (a.area.getD (.flt 0)).toFloat,
    iscrowd := a.iscrowd.getD 0,
    segmentation := dumps (normalize_json_numbers (a.segmentation.getD (.jarr []))) }

/-- End state of `build_coco_database_streaming` (coco-to-sqlite-convert.py,
lines 208-228) on a fresh store: tables are dropped and recreated, then each
source array is streamed in and batch-inserted in source order. -/
def ingestDoc (D : SrcDoc) : Store :=
  { images := D.images.map ingestImage,
    anns := D.anns.map ingestAnn,
    categories := D.categories.map ingestCategory }

/-- Splitting a character list on `'/'`, keeping empty components
(the character-level behaviour of splitting a POSIX path string on its
separator). -/
def splitSlash : List Char → List (List Char)
  | [] => [[]]
  | ch :: rest =>
    if ch = '/' then [] :: splitSlash rest
    else
      match splitSlash rest with
      | [] => [[ch]]
      | comp :: comps => (ch :: comp) :: comps

/-- Embedding of `Path(file_path).name` (POSIX): the final path
component, where empty and `"."` components are dropped by path
parsing, and a path reducing to no component has name `""`. -/
def baseName (s : String) : String :=
  let comps := (splitSlash s.data).map String.mk
  ((comps.filter (fun c => decide (c ≠ "" ∧ c ≠ "."))).getLast?).getD ""

/-- The image dict appended to `filtered_image_info`
(extract-subset-from-sqlite.py, lines 93-104): the stored row with
`file_name` replaced by its base name. -/
def toOutImage (r : ImageRow) : ImageRow :=
  { r with file_name := baseName r.file_name }

/-- The Boolean existence filter applied to a stored image row
(extract-subset-from-sqlite.py, lines 89-91): `Path(file_path).name in
target_images`. -/
def retainImage (present : List String) (r : ImageRow) : Bool :=
  decide (baseName r.file_name ∈ present)

/-- An output annotation dict (extract-subset-from-sqlite.py, lines
148-158), with bbox and segmentation decoded back to JSON values. -/
structure OutAnn where
  id : ℤ
  image_id : ℤ
  category_id : ℤ
  bbox : JVal
  area : ℚ
  iscrowd : ℤ
  segmentation : JVal

/-- Per-row decoding of a fetched annotation row
(extract-subset-from-sqlite.py, lines 135-158): `json.loads` on bbox
and segmentation, with the `except: ... = []` fallback substituting an
empty list on decode failure. -/
def decodeAnn (r : AnnRow) : OutAnn :=
  { id := r.id, image_id := r.image_id, category_id := r.category_id,
    bbox := (loads r.bbox).getD (.jarr []),
    area := r.area, iscrowd := r.iscrowd,
    segmentation := (loads r.segmentation).getD (.jarr []) }

/-- Consecutive slices `l[i : i + c]` for `i = 0, c, 2c, ...`, the chunking
performed by `range(0, len(filtered_image_ids), chunk_size)`
(extract-subset-from-sqlite.py, lines 113-117).  Defined with a fuel
argument (initially the list length, enough whenever `1 ≤ c`). -/
def chunksOfFuel : Nat → Nat → List α → List (List α)
  | _, _, [] => []
  | 0, _, _ :: _ => []
  | fuel + 1, c, l => l.take c :: chunksOfFuel fuel c (l.drop c)

/-- The list of chunks of `l` of size at most `c`. -/
def chunksOf (c : Nat) (l : List α) : List (List α) :=
  chunksOfFuel l.length c l

/-- The SQL row filter of one chunked annotation query
(extract-subset-from-sqlite.py, lines 121-133): `image_id IN chunk`,
and additionally `category_id IN target_category_ids` when the target
id list is non-empty (a falsy `target_category_ids` adds no clause). -/
def annMatches (chunk : List ℤ) (catIds : List ℤ) (a : AnnRow) : Bool :=
  decide (a.image_id ∈ chunk) && (catIds.isEmpty || decide (a.category_id ∈ catIds))

/-- Embedding of the chunked annotation fetch loop
(extract-subset-from-sqlite.py, lines 110-158): for each chunk of the
filtered image ids, one query returning the matching rows of the
`annotations` table in table order, each row decoded; results are
concatenated across chunks. -/
def fetchAnns (anns : List AnnRow) (ids : List ℤ) (catIds : List ℤ) (c : Nat) :
    List OutAnn :=
  ((chunksOf c ids).map (fun chunk =>
    ((anns.filter (annMatches chunk catIds)).map decodeAnn))).flatten

/-- Modelled from the spec: a single unchunked query over the whole
filtered image-id set, with the same optional category clause, each row
decoded as in the source.  This is the reference point of the
refinement claim that chunking does not change the result multiset. -/
def fetchAnnsUnchunked (anns : List AnnRow) (ids : List ℤ) (catIds : List ℤ) :
    List OutAnn :=
  (anns.filter (annMatches ids catIds)).map decodeAnn

/-- The `category_name_to_id` dict lookup (extract-subset-from-sqlite.py,
lines 51-54): built by iterating all category rows, so a duplicated
name maps to the id of its last row. -/
def lookupCategoryId (cats : List CatRow) (n : String) : Option ℤ :=
  ((cats.filter (fun c => decide (c.name = n))).getLast?).map CatRow.id

/-- Embedding of target-category resolution
(extract-subset-from-sqlite.py, lines 56-67): when the name list is
truthy (non-`None`, non-empty) each name is looked up, unresolved names
are warned about and skipped, and the id list is replaced by the
resolved ids; the final truthy id list is deduplicated by
`list(set(...))`.  Returns the effective target ids (with `[]` for a
falsy value) and the warned-about names. -/
def resolveTargets (cats : List CatRow) (names : Option (List String))
    (ids0 : Option (List ℤ)) : List ℤ × List String :=
  match names with
  | some ns =>
    if ns.isEmpty then ((ids0.getD []).dedup, [])
    else ((ns.filterMap (lookupCategoryId cats)).dedup,
          ns.filter (fun n => (lookupCategoryId cats n).isNone))
  | none => ((ids0.getD []).dedup, [])

/-- The category row filter for the output document
(extract-subset-from-sqlite.py, lines 160-171):
`if not target_category_ids or cat_id in target_category_ids`. -/
def catKept (targetIds : List ℤ) (c : CatRow) : Bool :=
  targetIds.isEmpty || decide (c.id ∈ targetIds)

/-- The assembled output document `new_coco_data`
(extract-subset-from-sqlite.py, lines 175-181). -/
structure CocoDoc where
  images : List ImageRow
  anns : List OutAnn
  categories : List CatRow
  description : String
  licenses : List JVal

/-- The fatal extraction error: zero images retained
(extract-subset-from-sqlite.py, lines 106-108), the spec's
`NoMatchError`. -/
inductive ExtractErr where
  | noMatch : ExtractErr
deriving DecidableEq

/-- Observable outcome of one extraction run: the result (or error),
the files written (path and content), and the `[WARN]` diagnostics
emitted for unresolved category names. -/
structure ExtractRun where
  outcome : Except ExtractErr CocoDoc
  writes : List (String × CocoDoc)
  warnings : List String

/-- The output file path `base_output_dir / split_name / patch_{n}.json`
(extract-subset-from-sqlite.py, lines 183-186). -/
def outputPath (base split : String) (patch : ℤ) : String :=
  base ++ "/" ++ split ++ "/patch_" ++ toString patch ++ ".json"

/-- The extraction pipeline after category resolution
(extract-subset-from-sqlite.py, lines 69-191): filter stored images by
base-name existence, fail with `NoMatchError` (and write nothing) when
no image is retained, fetch annotations in chunks of 1000, keep the
selected categories, assemble the document and write it to the output
path. -/
def extractCore (db : Store) (present : List String) (targetIds : List ℤ)
    (warns : List String) (base split : String) (patch : ℤ) : ExtractRun :=
  let retained := db.images.filter (retainImage present)
  let imgInfos := retained.map toOutImage
  let imgIds := retained.map ImageRow.id
  if imgIds.isEmpty then
    { outcome := .error .noMatch, writes := [], warnings := warns }
  else
    let outAnns := fetchAnns db.anns imgIds targetIds 1000
    let outCats := db.categories.filter (catKept targetIds)
    let doc : CocoDoc :=
      { images := imgInfos, anns := outAnns, categories := outCats,
        description := "Filtered COCO dataset from DB", licenses := [] }
    { outcome := .ok doc, writes := [(outputPath base split patch, doc)],
      warnings := warns }

/-- Embedding of `extract_coco_subset_from_db`
(extract-subset-from-sqlite.py, lines 10-191), starting after the
filesystem preconditions, with `present` the set `os.listdir(image_path)`:
resolve the target categories, then run the extraction pipeline. -/
def extractModel (db : Store) (present : List String)
    (names : Option (List String)) (ids0 : Option (List ℤ))
    (base split : String) (patch : ℤ) : ExtractRun :=
  let r := resolveTargets db.categories names ids0
  extractCore db present r.1 r.2 base split patch

/-- An observable store event of the streaming writers: one bulk
`executemany` insert, or one `conn.commit()`. -/
inductive DbEvent (α : Type) where
  | insertMany (batch : List α) : DbEvent α
  | commit : DbEvent α
deriving DecidableEq

/-- The batches flushed by the streaming-writer loop shared by
`stream_categories`, `stream_images` and `stream_annotations`
(coco-to-sqlite-convert.py, lines 61-88, 91-131, 134-179): each record
is appended to the buffer, the buffer is flushed whenever its length
reaches `B`, and after the stream ends the remaining buffer is flushed
only if it is non-empty (`if batch:`). -/
def batchLoop (B : Nat) : List α → List α → List (List α)
  | [], batch => if batch.isEmpty then [] else [batch]
  | r :: rs, batch =>
    let batch' := batch ++ [r]
    if B ≤ batch'.length then batch' :: batchLoop B rs []
    else batchLoop B rs batch'

/-- The flushed batches of a whole stream, starting from an empty buffer. -/
def streamFlushes (B : Nat) (recs : List α) : List (List α) :=
  batchLoop B recs []

/-- The store events emitted by the same loop: each flush is one
`insert_batch` (an `executemany`) immediately followed by one
`conn.commit()`. -/
def streamEventsLoop (B : Nat) : List α → List α → List (DbEvent α)
  | [], batch => if batch.isEmpty then [] else [.insertMany batch, .commit]
  | r :: rs, batch =>
    let batch' := batch ++ [r]
    if B ≤ batch'.length then
      .insertMany batch' :: .commit :: streamEventsLoop B rs []
    else streamEventsLoop B rs batch'

/-- The event trace of a whole stream, starting from an empty buffer. -/
def streamEvents (B : Nat) (recs : List α) : List (DbEvent α) :=
  streamEventsLoop B recs []

/-- A small stored image row used in concrete evaluations. -/
def imgA : ImageRow :=
  { id := 1, file_name := "a.jpg", width := 10, height := 10,
    license := none, flickr_url := none, coco_url := none, date_captured := none }

/-- The same image as a source-document element. -/
def srcImgA : SrcImage :=
  { id := 1, file_name := "a.jpg", width := 10, height := 10,
    license := none, flickr_url := none, coco_url := none, date_captured := none }

/-- A store holding one image, one annotation row whose stored bbox
text fails to decode, and one category. -/
def demoStore : Store :=
  { images := [imgA],
    anns := [{ id := 1, image_id := 1, category_id := 1,
               bbox := .badText "not json", area := 0, iscrowd := 0,
               segmentation := .jsonOf (.jarr []) }],
    categories := [{ id := 1, name := "cat", supercategory := "" }] }

/-- Three annotation rows over image ids 5, 7, 9, used to instantiate
the chunked-fetch equivalence. -/
def demoAnns : List AnnRow :=
  [{ id := 1, image_id := 5, category_id := 1, bbox := .jsonOf (.jarr []),
     area := 1, iscrowd := 0, segmentation := .jsonOf (.jarr []) },
   { id := 2, image_id := 7, category_id := 2, bbox := .jsonOf (.jarr []),
     area := 2, iscrowd := 0, segmentation := .jsonOf (.jarr []) },
   { id := 3, image_id := 9, category_id := 1, bbox := .jsonOf (.jarr []),
     area := 3, iscrowd := 1, segmentation := .jsonOf (.jarr []) }]

/-- A bbox of four numeric leaves, one of them an arbitrary-precision
decimal. -/
def demoBbox : List JVal := [.jint 1, .jdec (5 / 2), .jfloat 3, .jint 4]

/-- A source annotation carrying `demoBbox`. -/
def demoAnn : SrcAnn :=
  { id := 1, image_id := 1, category_id := 1, bbox := some (.jarr demoBbox),
    area := some (.dec (25 / 2)), iscrowd := some 0, segmentation := none }

/-- A COCO document that is valid (one image, bare base file name,
distinct ids) but whose single category name carries surrounding
whitespace. -/
def docUntrimmed : SrcDoc :=
  { images := [srcImgA],
    anns := [],
    categories := [{ id := 1, name := " cat", supercategory := some "animal" }] }

/-- A small well-formed COCO document used to instantiate the
round-trip theorem. -/
def docClean : SrcDoc :=
  { images := [srcImgA],
    anns := [{ id := 1, image_id := 1, category_id := 1,
               bbox := some (.jarr [.jint 1, .jint 2, .jint 3, .jint 4]),
               area := some (.flt 12), iscrowd := some 0,
               segmentation := some (.jarr []) }],
    categories := [{ id := 1, name := "cat", supercategory := some "animal" }] }

mutual

/-- One application of the normalizer leaves no `Decimal` leaf, so a
second application finds nothing to change. -/
theorem normalize_json_numbers_idem :
    ∀ v : JVal,
      normalize_json_numbers (normalize_json_numbers v) = normalize_json_numbers v
  | .jnull => rfl
  | .jbool _ => rfl
  | .jint _ => rfl
  | .jfloat _ => rfl
  | .jdec _ => rfl
  | .jstr _ => rfl
  | .jarr xs => congrArg JVal.jarr (normalizeList_idem xs)
  | .jobj fs => congrArg JVal.jobj (normalizeObj_idem fs)

theorem normalizeList_idem :
    ∀ xs : List JVal, normalizeList (normalizeList xs) = normalizeList xs
  | [] => rfl
  | x :: xs => by
      show normalize_json_numbers (normalize_json_numbers x) :: _ = _
      rw [normalize_json_numbers_idem x, normalizeList_idem xs]
      rfl

theorem normalizeObj_idem :
    ∀ fs : List (String × JVal), normalizeObj (normalizeObj fs) = normalizeObj fs
  | [] => rfl
  | (k, v) :: fs => by
      show (k, normalize_json_numbers (normalize_json_numbers v)) :: _ = _
      rw [normalize_json_numbers_idem v, normalizeObj_idem fs]
      rfl

end

mutual

/-- The normalizer's output is serializable: it contains no `Decimal` leaf. -/
theorem noDecimals_normalize :
    ∀ v : JVal, noDecimals (normalize_json_numbers v) = true
  | .jnull => rfl
  | .jbool _ => rfl
  | .jint _ => rfl
  | .jfloat _ => rfl
  | .jdec _ => rfl
  | .jstr _ => rfl
  | .jarr xs => noDecimalsList_normalize xs
  | .jobj fs => noDecimalsObj_normalize fs

theorem noDecimalsList_normalize :
    ∀ xs : List JVal, noDecimalsList (normalizeList xs) = true
  | [] => rfl
  | x :: xs => by
      show (noDecimals (normalize_json_numbers x) && _) = true
      rw [noDecimals_normalize x, noDecimalsList_normalize xs]
      rfl

theorem noDecimalsObj_normalize :
    ∀ fs : List (String × JVal), noDecimalsObj (normalizeObj fs) = true
  | [] => rfl
  | (k, v) :: fs => by
      show (noDecimals (normalize_json_numbers v) && _) = true
      rw [noDecimals_normalize v, noDecimalsObj_normalize fs]
      rfl

end

/-- The normalizer preserves the numeric value of a numeric leaf. -/
theorem numQ_normalize :
    ∀ v : JVal, (JVal.numQ? v).isSome = true →
      JVal.numQ? (normalize_json_numbers v) = JVal.numQ? v
  | .jint _, _ => rfl
  | .jfloat _, _ => rfl
  | .jdec _, _ => rfl
  | .jnull, h => by simp [JVal.numQ?] at h
  | .jbool _, h => by simp [JVal.numQ?] at h
  | .jstr _, h => by simp [JVal.numQ?] at h
  | .jarr _, h => by simp [JVal.numQ?] at h
  | .jobj _, h => by simp [JVal.numQ?] at h

/-- `normalizeList` preserves list length. -/
theorem normalizeList_length : ∀ xs : List JVal, (normalizeList xs).length = xs.length
  | [] => rfl
  | _ :: xs => congrArg Nat.succ (normalizeList_length xs)

/-- On a list of numeric leaves, the normalizer preserves every numeric value. -/
theorem normalizeList_numQ :
    ∀ xs : List JVal, (∀ v ∈ xs, (JVal.numQ? v).isSome = true) →
      (normalizeList xs).map JVal.numQ? = xs.map JVal.numQ?
  | [], _ => rfl
  | x :: xs, h => by
      show JVal.numQ? (normalize_json_numbers x) :: _ = _
      rw [numQ_normalize x (h x (by simp)),
        normalizeList_numQ xs (fun v hv => h v (by simp [hv]))]
      rfl

/-- Every record appended to the stream is flushed, in order: the
concatenation of the flushed batches is the record stream. -/
theorem batchLoop_flatten (B : Nat) :
    ∀ (recs batch : List α), (batchLoop B recs batch).flatten = batch ++ recs
  | [], batch => by
      unfold batchLoop
      cases hb : batch.isEmpty
      · simp
      · simp [List.isEmpty_iff.mp hb]
  | r :: rs, batch => by
      unfold batchLoop
      by_cases h : B ≤ batch.length + 1
      · simp [h, batchLoop_flatten B rs []]
      · simp [h, batchLoop_flatten B rs (batch ++ [r])]

/-- No flushed batch is empty: the in-loop flush always carries a buffer
that just received a record, and the trailing flush is guarded by
`if batch:`. -/
theorem batchLoop_all_nonempty (B : Nat) :
    ∀ (recs batch : List α), ((batchLoop B recs batch).all (fun b => !b.isEmpty)) = true
  | [], batch => by
      unfold batchLoop
      cases hb : batch.isEmpty
      · simp [hb]
      · simp
  | r :: rs, batch => by
      unfold batchLoop
      by_cases h : B ≤ batch.length + 1
      · simp [h, batchLoop_all_nonempty B rs []]
      · simp [h, batchLoop_all_nonempty B rs (batch ++ [r])]

/-- The event trace factors through the flushed batches: each flush is
exactly one bulk insert followed by one commit. -/
theorem streamEventsLoop_flushes (B : Nat) :
    ∀ (recs batch : List α),
      streamEventsLoop B recs batch =
        (batchLoop B recs batch).flatMap (fun b => [.insertMany b, .commit])
  | [], batch => by
      unfold streamEventsLoop batchLoop
      cases hb : batch.isEmpty
      · simp
      · simp
  | r :: rs, batch => by
      unfold streamEventsLoop batchLoop
      by_cases h : B ≤ batch.length + 1
      · simp [h, streamEventsLoop_flushes B rs []]
      · simp [h, streamEventsLoop_flushes B rs (batch ++ [r])]

/-- The fuel argument of `chunksOfFuel` is irrelevant once it is at
least the list length (each step consumes at least one element when
`1 ≤ c`). -/
theorem chunksOfFuel_congr (c : Nat) (hc : 1 ≤ c) :
    ∀ (f₁ f₂ : Nat) (l : List α), l.length ≤ f₁ → l.length ≤ f₂ →
      chunksOfFuel f₁ c l = chunksOfFuel f₂ c l
  | f₁, f₂, [], _, _ => by cases f₁ <;> cases f₂ <;> rfl
  | 0, _, x :: t, h₁, _ => absurd h₁ (by simp)
  | _ + 1, 0, x :: t, _, h₂ => absurd h₂ (by simp)
  | f₁ + 1, f₂ + 1, x :: t, h₁, h₂ => by
      show _ :: chunksOfFuel f₁ c ((x :: t).drop c) = _ :: chunksOfFuel f₂ c ((x :: t).drop c)
      rw [chunksOfFuel_congr c hc f₁ f₂ ((x :: t).drop c)
        (by simp only [List.length_drop, List.length_cons] at *; omega)
        (by simp only [List.length_drop, List.length_cons] at *; omega)]

/-- Unfolding equation for `chunksOf` on a non-empty list. -/
theorem chunksOf_cons (c : Nat) (hc : 1 ≤ c) (l : List α) (hl : l ≠ []) :
    chunksOf c l = l.take c :: chunksOf c (l.drop c) := by
  rcases l with _ | ⟨x, t⟩
  · exact absurd rfl hl
  · show chunksOfFuel (t.length + 1) c (x :: t) = _
    show _ = (x :: t).take c :: chunksOfFuel ((x :: t).drop c).length c ((x :: t).drop c)
    show (x :: t).take c :: chunksOfFuel t.length c ((x :: t).drop c) = _
    rw [chunksOfFuel_congr c hc t.length ((x :: t).drop c).length ((x :: t).drop c)
      (by simp [List.length_drop]; omega) le_rfl]

/-- The chunks concatenate back to the original list. -/
theorem chunksOf_flatten (c : Nat) (hc : 1 ≤ c) :
    ∀ l : List α, (chunksOf c l).flatten = l
  | [] => rfl
  | x :: t => by
      rw [chunksOf_cons c hc (x :: t) (by simp), List.flatten_cons,
        chunksOf_flatten c hc ((x :: t).drop c), List.take_append_drop]
termination_by l => l.length
decreasing_by simp [List.length_drop]; omega

/-- Filtering by a disjunction of two mutually exclusive predicates is,
up to permutation, the concatenation of the two filters. -/
theorem filter_or_perm (p q : α → Bool) (hpq : ∀ a, ¬(p a = true ∧ q a = true)) :
    ∀ xs : List α,
      List.Perm (xs.filter (fun a => p a || q a)) (xs.filter p ++ xs.filter q) := by
  intro xs
  induction xs with
  | nil => simp
  | cons x xs ih =>
    cases hp : p x with
    | true =>
      have hq : q x = false := by
        cases hq' : q x with
        | false => rfl
        | true => exact absurd ⟨hp, hq'⟩ (hpq x)
      simpa [List.filter_cons, hp, hq] using ih.cons x
    | false =>
      cases hq : q x with
      | true =>
        simpa [List.filter_cons, hp, hq] using (ih.cons x).trans List.perm_middle.symm
      | false =>
        simpa [List.filter_cons, hp, hq] using ih

/-- Splitting a duplicate-free key set into consecutive chunks and
filtering per chunk returns, up to permutation, the single filter over
the whole key set. -/
theorem chunk_filter_perm (k : α → ℤ) (p : α → Bool) (xs : List α) (c : Nat)
    (hc : 1 ≤ c) :
    ∀ ids : List ℤ, ids.Nodup →
      List.Perm
        ((chunksOf c ids).map
          (fun ch => xs.filter (fun a => decide (k a ∈ ch) && p a))).flatten
        (xs.filter (fun a => decide (k a ∈ ids) && p a))
  | [], _ => by simp [chunksOf, chunksOfFuel]
  | x :: t, hnd => by
      rw [chunksOf_cons c hc (x :: t) (by simp), List.map_cons, List.flatten_cons]
      have ih := chunk_filter_perm k p xs c hc ((x :: t).drop c)
        (List.Nodup.sublist (List.drop_sublist c (x :: t)) hnd)
      have hdisj : List.Disjoint ((x :: t).take c) ((x :: t).drop c) :=
        List.disjoint_take_drop hnd le_rfl
      have hexcl : ∀ a, ¬((decide (k a ∈ (x :: t).take c) && p a) = true ∧
          (decide (k a ∈ (x :: t).drop c) && p a) = true) := by
        intro a h
        rcases h with ⟨h1, h2⟩
        rw [Bool.and_eq_true, decide_eq_true_iff] at h1 h2
        exact hdisj h1.1 h2.1
      have hsplit := filter_or_perm
        (fun a => decide (k a ∈ (x :: t).take c) && p a)
        (fun a => decide (k a ∈ (x :: t).drop c) && p a) hexcl xs
      have hpred : xs.filter (fun a => decide (k a ∈ (x :: t)) && p a) =
          xs.filter (fun a => (decide (k a ∈ (x :: t).take c) && p a) ||
            (decide (k a ∈ (x :: t).drop c) && p a)) := by
        apply List.filter_congr
        intro a _
        have hmem : (k a ∈ (x :: t)) ↔
            (k a ∈ (x :: t).take c ∨ k a ∈ (x :: t).drop c) := by
          conv_lhs => rw [← List.take_append_drop c (x :: t)]
          exact List.mem_append
        by_cases h1 : k a ∈ (x :: t).take c <;>
          by_cases h2 : k a ∈ (x :: t).drop c <;>
            simp [hmem, h1, h2]
      rw [hpred]
      exact ((ih.append_left (xs.filter
        (fun a => decide (k a ∈ (x :: t).take c) && p a)))).trans hsplit.symm
termination_by ids => ids.length
decreasing_by simp only [List.length_drop, List.length_cons]; omega

/-- The chunked annotation fetch is, up to permutation, the single
unchunked query, for any chunk size at least 1 and duplicate-free image
ids. -/
theorem fetch_perm (anns : List AnnRow) (ids : List ℤ) (catIds : List ℤ)
    (c : Nat) (hc : 1 ≤ c) (hids : ids.Nodup) :
    List.Perm (fetchAnns anns ids catIds c) (fetchAnnsUnchunked anns ids catIds) := by
  have h := chunk_filter_perm (fun a : AnnRow => a.image_id)
    (fun a => catIds.isEmpty || decide (a.category_id ∈ catIds)) anns c hc ids hids
  have hmap := h.map decodeAnn
  unfold fetchAnns fetchAnnsUnchunked
  unfold annMatches
  simpa [List.map_flatten, List.map_map, Function.comp] using hmap

/-- C6: for every nested value (scalar, ordered sequence, or key-value
mapping), applying the numeric normalizer `normalize_json_numbers`
twice yields exactly the same result as applying it once. -/
theorem claim_C6_normalizer_idempotent (v : JVal) :
    normalize_json_numbers (normalize_json_numbers v) = normalize_json_numbers v :=
  normalize_json_numbers_idem v

/-- C3: for every stored image row and every present-file-name set, the
existence filter retains the image if and only if the base name of its
stored `file_name` is a member of the present-file-name set. -/
theorem claim_C3_existence_filter (imgs : List ImageRow) (present : List String)
    (r : ImageRow) :
    r ∈ imgs.filter (retainImage present) ↔
      r ∈ imgs ∧ baseName r.file_name ∈ present := by
  simp [List.mem_filter, retainImage]

/-- C2: for every image-id set (as a duplicate-free list), every
category-id set and every chunk size `c ≥ 1`, the chunked annotation
fetch returns the same multiset of annotations as a single unchunked
query — hence the result is independent of the chunk size. -/
theorem claim_C2_chunked_fetch_eq (anns : List AnnRow) (ids : List ℤ)
    (catIds : List ℤ) (c : Nat) (hc : 1 ≤ c) (hids : ids.Nodup) :
    List.Perm (fetchAnns anns ids catIds c) (fetchAnnsUnchunked anns ids catIds) :=
  fetch_perm anns ids catIds c hc hids

/-- Witness for C2 at a concrete input: three stored annotation rows,
image ids `[5, 7, 9]`, category set `[1]`, chunk size 2. -/
theorem claim_C2_witness :
    (1 ≤ 2 ∧ ([5, 7, 9] : List ℤ).Nodup) ∧
      List.Perm (fetchAnns demoAnns [5, 7, 9] [1] 2)
        (fetchAnnsUnchunked demoAnns [5, 7, 9] [1]) :=
  ⟨⟨by decide, by decide⟩,
    claim_C2_chunked_fetch_eq demoAnns [5, 7, 9] [1] 2 (by decide) (by decide)⟩

/-- C7 counterexample: after a stream of exactly 2 records with batch
size 2 (an exact multiple), the loop flushes once and no final empty
flush occurs — the trailing flush is guarded by `if batch:`, so the
claimed unconditional empty flush (which would appear as an
`insertMany []` event and a second commit) never happens. -/
theorem claim_C7_counterexample :
    streamFlushes 2 [(0 : ℤ), 1] = [[0, 1]] ∧
      DbEvent.insertMany ([] : List ℤ) ∉ streamEvents 2 [(0 : ℤ), 1] ∧
      (streamEvents 2 [(0 : ℤ), 1]).count DbEvent.commit = 1 := by
  refine ⟨by decide, by decide, by decide⟩

/-- C7 (amended): the trailing flush after the stream ends happens only
when the buffer is non-empty; every flush (in-loop or trailing) carries
at least one record and issues exactly one bulk insert followed by
exactly one commit, and together the flushes write every appended
record in order. -/
theorem claim_C7_finalize_conditional (B : Nat) (recs : List α) :
    (streamFlushes B recs).flatten = recs ∧
      ((streamFlushes B recs).all (fun b => !b.isEmpty)) = true ∧
      streamEvents B recs =
        (streamFlushes B recs).flatMap (fun b => [.insertMany b, .commit]) :=
  ⟨by simpa using batchLoop_flatten B recs [],
    batchLoop_all_nonempty B recs [],
    streamEventsLoop_flushes B recs []⟩

/-- C5: evaluation at the failing input.  The store `demoStore` holds an
annotation row whose serialized bbox does not decode; the extraction
run succeeds anyway, silently substituting the empty structure `[]` for
the undecodable bbox instead of raising a `DataIntegrityError` — the
legacy fallback the spec mandates replacing. -/
theorem claim_C5_decode_fallback_eval :
    Except.map (fun d => d.anns.map OutAnn.bbox)
        (extractModel demoStore ["a.jpg"] none none "out" "train" 0).outcome =
      .ok [.jarr []] ∧
    (extractModel demoStore ["a.jpg"] none none "out" "train" 0).warnings = [] := by
  exact ⟨rfl, rfl⟩

/-- C4: whenever the existence filter retains zero images, the
extraction fails with the no-match error and writes no output file. -/
theorem claim_C4_no_match_no_write (db : Store) (present : List String)
    (names : Option (List String)) (ids0 : Option (List ℤ))
    (base split : String) (patch : ℤ)
    (h : db.images.filter (retainImage present) = []) :
    (extractModel db present names ids0 base split patch).outcome =
        .error .noMatch ∧
      (extractModel db present names ids0 base split patch).writes = [] := by
  unfold extractModel extractCore
  simp [h]

/-- Witness for C4: the target directory contains only `b.jpg`, which
matches no stored image of `demoStore`. -/
theorem claim_C4_witness :
    demoStore.images.filter (retainImage ["b.jpg"]) = [] ∧
      (extractModel demoStore ["b.jpg"] none none "out" "train" 0).outcome =
        .error .noMatch ∧
      (extractModel demoStore ["b.jpg"] none none "out" "train" 0).writes = [] := by
  refine ⟨by decide, ?_⟩
  exact claim_C4_no_match_no_write demoStore ["b.jpg"] none none "out" "train" 0 (by decide)

/-- C8: for every ingested annotation whose source bbox is an ordered
sequence of 4 numeric values, the stored bbox is the serialization of
that sequence with every arbitrary-precision decimal converted to a
float: it decodes back as valid JSON (the round trip through
`dumps`/`loads` recovers it), still has 4 entries, contains no decimal
leaf, and every entry's numeric value equals the source value. -/
theorem claim_C8_bbox_normalized (a : SrcAnn) (vs : List JVal)
    (hb : a.bbox = some (.jarr vs)) (hlen : vs.length = 4)
    (hnum : ∀ v ∈ vs, (JVal.numQ? v).isSome = true) :
    (ingestAnn a).bbox = dumps (.jarr (normalizeList vs)) ∧
      loads (ingestAnn a).bbox = some (.jarr (normalizeList vs)) ∧
      (normalizeList vs).length = 4 ∧
      noDecimals (.jarr (normalizeList vs)) = true ∧
      (normalizeList vs).map JVal.numQ? = vs.map JVal.numQ? := by
  refine ⟨?_, ?_, ?_, ?_, ?_⟩
  · show dumps (normalize_json_numbers (a.bbox.getD (.jarr []))) = _
    rw [hb]
    rfl
  · show loads (dumps (normalize_json_numbers (a.bbox.getD (.jarr [])))) = _
    rw [hb]
    rfl
  · rw [normalizeList_length, hlen]
  · exact noDecimalsList_normalize vs
  · exact normalizeList_numQ vs hnum

/-- Witness for C8 at a concrete bbox `[1, Decimal 5/2, 3.0, 4]`. -/
theorem claim_C8_witness :
    (demoAnn.bbox = some (.jarr demoBbox) ∧ demoBbox.length = 4 ∧
        ∀ v ∈ demoBbox, (JVal.numQ? v).isSome = true) ∧
      ((ingestAnn demoAnn).bbox = dumps (.jarr (normalizeList demoBbox)) ∧
        loads (ingestAnn demoAnn).bbox = some (.jarr (normalizeList demoBbox)) ∧
        (normalizeList demoBbox).length = 4 ∧
        noDecimals (.jarr (normalizeList demoBbox)) = true ∧
        (normalizeList demoBbox).map JVal.numQ? = demoBbox.map JVal.numQ?) :=
  ⟨⟨rfl, rfl, by decide⟩,
    claim_C8_bbox_normalized demoAnn demoBbox rfl rfl (by decide)⟩

/-- The warning list is returned unchanged by the extraction pipeline. -/
theorem extractCore_warnings (db : Store) (present : List String) (t : List ℤ)
    (w : List String) (base split : String) (patch : ℤ) :
    (extractCore db present t w base split patch).warnings = w := by
  unfold extractCore
  by_cases h : ((db.images.filter (retainImage present)).map ImageRow.id).isEmpty <;>
    simp [h]

/-- The outcome and the writes of the extraction pipeline do not depend
on the warning list. -/
theorem extractCore_outcome_warns (db : Store) (present : List String) (t : List ℤ)
    (w1 w2 : List String) (base split : String) (patch : ℤ) :
    (extractCore db present t w1 base split patch).outcome =
        (extractCore db present t w2 base split patch).outcome ∧
      (extractCore db present t w1 base split patch).writes =
        (extractCore db present t w2 base split patch).writes := by
  unfold extractCore
  by_cases h : ((db.images.filter (retainImage present)).map ImageRow.id).isEmpty <;>
    simp [h]

/-- A name on which the lookup fails contributes nothing to a
`filterMap` over the lookup: removing all its occurrences leaves the
resolved list unchanged. -/
theorem filterMap_skip_none (f : String → Option ℤ) (n : String) (hf : f n = none)
    (ns : List String) :
    ns.filterMap f = (ns.filter (fun m => decide (m ≠ n))).filterMap f := by
  induction ns with
  | nil => rfl
  | cons m ms ih =>
    by_cases hm : m = n
    · subst hm
      simp [List.filterMap_cons, List.filter_cons, hf, ih]
    · cases hfm : f m <;>
        simp [List.filterMap_cons, List.filter_cons, hm, hfm, ih]

/-- C9: for every requested category-name list that is non-empty (and
contains at least one name that resolves), a name with no match in the
stored id-name mapping is reported in the warning diagnostics and is
excluded from the resolved id set, and extraction proceeds exactly as
if only the resolved ids had been supplied (resolution is not fatal). -/
theorem claim_C9_unresolved_name_warned (db : Store) (present : List String)
    (ids0 : Option (List ℤ)) (base split : String) (patch : ℤ)
    (ns : List String) (n : String) (hns : ns ≠ [])
    (hres : ∃ m ∈ ns, (lookupCategoryId db.categories m).isSome = true)
    (hn : n ∈ ns) (hmiss : lookupCategoryId db.categories n = none) :
    n ∈ (extractModel db present (some ns) ids0 base split patch).warnings ∧
      (resolveTargets db.categories (some ns) ids0).1 =
        ((ns.filter (fun m => decide (m ≠ n))).filterMap
          (lookupCategoryId db.categories)).dedup ∧
      (extractModel db present (some ns) ids0 base split patch).outcome =
        (extractModel db present none
          (some (ns.filterMap (lookupCategoryId db.categories)))
          base split patch).outcome := by
  have hne : ns.isEmpty = false := by
    cases ns with
    | nil => exact absurd rfl hns
    | cons _ _ => rfl
  have h1 : (resolveTargets db.categories (some ns) ids0).1 =
      (ns.filterMap (lookupCategoryId db.categories)).dedup := by
    simp [resolveTargets, hne]
  have h2 : (resolveTargets db.categories none
      (some (ns.filterMap (lookupCategoryId db.categories)))).1 =
      (ns.filterMap (lookupCategoryId db.categories)).dedup := by
    simp [resolveTargets]
  refine ⟨?_, ?_, ?_⟩
  · show n ∈ (extractCore db present (resolveTargets db.categories (some ns) ids0).1
      (resolveTargets db.categories (some ns) ids0).2 base split patch).warnings
    rw [extractCore_warnings]
    simp [resolveTargets, hne]
    exact ⟨hn, by simp [hmiss]⟩
  · rw [h1, filterMap_skip_none (lookupCategoryId db.categories) n hmiss ns]
  · show (extractCore db present (resolveTargets db.categories (some ns) ids0).1
        (resolveTargets db.categories (some ns) ids0).2 base split patch).outcome =
      (extractCore db present (resolveTargets db.categories none
          (some (ns.filterMap (lookupCategoryId db.categories)))).1
        (resolveTargets db.categories none
          (some (ns.filterMap (lookupCategoryId db.categories)))).2
        base split patch).outcome
    rw [h1, h2]
    exact (extractCore_outcome_warns db present _ _ _ base split patch).1

/-- Witness for C9: requesting `["cat", "bird"]` against a store that
only knows `cat` warns about `bird`, excludes it, and extraction
proceeds with the resolved ids. -/
theorem claim_C9_witness :
    ((["cat", "bird"] : List String) ≠ [] ∧
        lookupCategoryId demoStore.categories "bird" = none) ∧
      ("bird" ∈ (extractModel demoStore ["a.jpg"] (some ["cat", "bird"]) none
          "out" "train" 0).warnings ∧
        (resolveTargets demoStore.categories (some ["cat", "bird"]) none).1 =
          ((["cat", "bird"].filter (fun m => decide (m ≠ "bird"))).filterMap
            (lookupCategoryId demoStore.categories)).dedup ∧
        (extractModel demoStore ["a.jpg"] (some ["cat", "bird"]) none
            "out" "train" 0).outcome =
          (extractModel demoStore ["a.jpg"] none
            (some (["cat", "bird"].filterMap (lookupCategoryId demoStore.categories)))
            "out" "train" 0).outcome) :=
  ⟨⟨by decide, by decide⟩,
    claim_C9_unresolved_name_warned demoStore ["a.jpg"] none "out" "train" 0
      ["cat", "bird"] "bird" (by decide) ⟨"cat", by decide, by decide⟩
      (by decide) (by decide)⟩

/-- C10: when a non-empty category-name list is supplied and no name
resolves, the resolved id set is empty and category filtering is
silently disabled entirely: the run behaves exactly like an unfiltered
run, the output document keeps all stored categories, and its
annotations are fetched with no category clause (all annotations of the
retained images). -/
theorem claim_C10_all_unresolved_disables_filter (db : Store)
    (present : List String) (ids0 : Option (List ℤ)) (base split : String)
    (patch : ℤ) (ns : List String) (hns : ns ≠ [])
    (hall : ∀ m ∈ ns, lookupCategoryId db.categories m = none) :
    (resolveTargets db.categories (some ns) ids0).1 = [] ∧
      (extractModel db present (some ns) ids0 base split patch).outcome =
        (extractModel db present none none base split patch).outcome ∧
      (extractModel db present (some ns) ids0 base split patch).writes =
        (extractModel db present none none base split patch).writes ∧
      ∀ doc, (extractModel db present (some ns) ids0 base split patch).outcome =
          .ok doc →
        doc.categories = db.categories ∧
          doc.anns = fetchAnns db.anns
            ((db.images.filter (retainImage present)).map ImageRow.id) [] 1000 := by
  have hne : ns.isEmpty = false := by
    cases ns with
    | nil => exact absurd rfl hns
    | cons _ _ => rfl
  have hfm : ns.filterMap (lookupCategoryId db.categories) = [] :=
    List.filterMap_eq_nil_iff.mpr hall
  have hr1 : (resolveTargets db.categories (some ns) ids0).1 = [] := by
    simp [resolveTargets, hne, hfm]
  have hr1' : (resolveTargets db.categories (none : Option (List String))
      (none : Option (List ℤ))).1 = [] := by
    simp [resolveTargets]
  have hmod : extractModel db present (some ns) ids0 base split patch =
      extractCore db present []
        (resolveTargets db.categories (some ns) ids0).2 base split patch := by
    show extractCore db present (resolveTargets db.categories (some ns) ids0).1
      (resolveTargets db.categories (some ns) ids0).2 base split patch = _
    rw [hr1]
  have hmod' : extractModel db present none none base split patch =
      extractCore db present []
        (resolveTargets db.categories none none).2 base split patch := by
    show extractCore db present (resolveTargets db.categories none none).1
      (resolveTargets db.categories none none).2 base split patch = _
    rw [hr1']
  refine ⟨hr1, ?_, ?_, ?_⟩
  · rw [hmod, hmod']
    exact (extractCore_outcome_warns db present [] _ _ base split patch).1
  · rw [hmod, hmod']
    exact (extractCore_outcome_warns db present [] _ _ base split patch).2
  · intro doc hdoc
    rw [hmod] at hdoc
    unfold extractCore at hdoc
    by_cases hE : ((db.images.filter (retainImage present)).map ImageRow.id).isEmpty
    · simp [hE] at hdoc
    · simp only [hE, if_false, Bool.false_eq_true] at hdoc
      rw [Except.ok.injEq] at hdoc
      subst hdoc
      constructor
      · exact List.filter_eq_self.mpr (fun c _ => rfl)
      · rfl

/-- Witness for C10: requesting only the unknown name `bird` disables
category filtering entirely on `demoStore`. -/
theorem claim_C10_witness :
    ((["bird"] : List String) ≠ [] ∧
        ∀ m ∈ (["bird"] : List String),
          lookupCategoryId demoStore.categories m = none) ∧
      ((resolveTargets demoStore.categories (some ["bird"]) none).1 = [] ∧
        (extractModel demoStore ["a.jpg"] (some ["bird"]) none
            "out" "train" 0).outcome =
          (extractModel demoStore ["a.jpg"] none none "out" "train" 0).outcome ∧
        (extractModel demoStore ["a.jpg"] (some ["bird"]) none
            "out" "train" 0).writes =
          (extractModel demoStore ["a.jpg"] none none "out" "train" 0).writes ∧
        ∀ doc, (extractModel demoStore ["a.jpg"] (some ["bird"]) none
            "out" "train" 0).outcome = .ok doc →
          doc.categories = demoStore.categories ∧
            doc.anns = fetchAnns demoStore.anns
              ((demoStore.images.filter (retainImage ["a.jpg"])).map ImageRow.id)
              [] 1000) :=
  ⟨⟨by decide, by decide⟩,
    claim_C10_all_unresolved_disables_filter demoStore ["a.jpg"] none
      "out" "train" 0 ["bird"] (by decide) (by decide)⟩

/-- C1 counterexample: `docUntrimmed` is a valid COCO document (one
image with a bare base file name, distinct ids, no annotations) whose
single category is named `" cat"`.  Ingesting and extracting with no
category filter and the image's file name present returns the category
renamed to `"cat"`: ingestion strips surrounding whitespace, a change
that is not covered by decimal-to-float field normalization, so the
extracted category set differs from the source's. -/
theorem claim_C1_counterexample :
    Except.map (fun d => d.categories.map CatRow.name)
        (extractModel (ingestDoc docUntrimmed) ["a.jpg"] none none
          "out" "train" 0).outcome = .ok ["cat"] ∧
      docUntrimmed.categories.map SrcCategory.name = [" cat"] ∧
      ("cat" : String) ≠ " cat" := by
  refine ⟨rfl, rfl, by decide⟩

/-- C1 (amended): for every COCO document that is valid in the sense of
the data model — at least one image, distinct image ids, file names
that are bare base names, annotations referencing existing images —
ingesting into a fresh store and extracting with no category filter and
a present-file set containing every image file name yields a document
whose images, annotations and categories are those of the source up to
the ingestion/extraction field normalization: decimals become floats
inside bbox/segmentation, `area` is coerced to float, missing optional
fields are defaulted, category names are whitespace-trimmed, and image
file names are replaced by their base names (the annotation list up to
permutation, the other two lists exactly, in source order). -/
theorem claim_C1_roundtrip_normalized (D : SrcDoc) (present : List String)
    (base split : String) (patch : ℤ)
    (hne : D.images ≠ [])
    (hids : (D.images.map SrcImage.id).Nodup)
    (hbase : ∀ i ∈ D.images, baseName i.file_name = i.file_name)
    (hpres : ∀ i ∈ D.images, i.file_name ∈ present)
    (href : ∀ a ∈ D.anns, a.image_id ∈ D.images.map SrcImage.id) :
    ∃ doc : CocoDoc,
      (extractModel (ingestDoc D) present none none base split patch).outcome =
          .ok doc ∧
        doc.images = D.images.map (fun i => toOutImage (ingestImage i)) ∧
        List.Perm doc.anns (D.anns.map (fun a => decodeAnn (ingestAnn a))) ∧
        doc.categories = D.categories.map ingestCategory := by
  have hret : (ingestDoc D).images.filter (retainImage present) =
      (ingestDoc D).images := by
    apply List.filter_eq_self.mpr
    intro r hr
    simp only [ingestDoc] at hr
    rcases List.mem_map.mp hr with ⟨i, hi, rfl⟩
    show decide (baseName (ingestImage i).file_name ∈ present) = true
    have hfn : (ingestImage i).file_name = i.file_name := rfl
    rw [hfn, hbase i hi]
    exact decide_eq_true (hpres i hi)
  have hids2 : (ingestDoc D).images.map ImageRow.id = D.images.map SrcImage.id := by
    simp only [ingestDoc, List.map_map]
    rfl
  have hIE : (((ingestDoc D).images).map ImageRow.id).isEmpty = false := by
    rw [hids2]
    cases hD : D.images with
    | nil => exact absurd hD hne
    | cons i t => rfl
  have hperm : List.Perm
      (fetchAnns (ingestDoc D).anns (D.images.map SrcImage.id) [] 1000)
      ((ingestDoc D).anns.map decodeAnn) := by
    have h1 := fetch_perm (ingestDoc D).anns (D.images.map SrcImage.id) [] 1000
      (by norm_num) hids
    have h2 : fetchAnnsUnchunked (ingestDoc D).anns (D.images.map SrcImage.id) [] =
        (ingestDoc D).anns.map decodeAnn := by
      unfold fetchAnnsUnchunked
      rw [List.filter_eq_self.mpr]
      intro a ha
      simp only [ingestDoc] at ha
      rcases List.mem_map.mp ha with ⟨sa, hsa, rfl⟩
      have hid : (ingestAnn sa).image_id = sa.image_id := rfl
      simp [annMatches, hid, href sa hsa]
    rw [h2] at h1
    exact h1
  refine ⟨{ images := D.images.map (fun i => toOutImage (ingestImage i)),
            anns := fetchAnns (ingestDoc D).anns (D.images.map SrcImage.id) [] 1000,
            categories := D.categories.map ingestCategory,
            description := "Filtered COCO dataset from DB", licenses := [] },
    ?_, rfl, ?_, rfl⟩
  · show (extractCore (ingestDoc D) present
        (resolveTargets (ingestDoc D).categories none none).1
        (resolveTargets (ingestDoc D).categories none none).2
        base split patch).outcome = _
    have hr0 : (resolveTargets (ingestDoc D).categories none none).1 = [] := by
      simp [resolveTargets]
    rw [hr0]
    unfold extractCore
    rw [hret]
    simp only [hIE, Bool.false_eq_true, if_false]
    rw [Except.ok.injEq, CocoDoc.mk.injEq]
    refine ⟨?_, ?_, ?_, rfl, rfl⟩
    · simp only [ingestDoc, List.map_map]
      rfl
    · rw [hids2]
    · have hkeep : ∀ c ∈ (ingestDoc D).categories, catKept [] c = true :=
        fun c _ => rfl
      rw [List.filter_eq_self.mpr hkeep]
      simp [ingestDoc]
  · have hmap : (ingestDoc D).anns.map decodeAnn =
        D.anns.map (fun a => decodeAnn (ingestAnn a)) := by
      simp only [ingestDoc, List.map_map]
      rfl
    rw [hmap] at hperm
    exact hperm

/-- Witness for the amended C1 at the concrete document `docClean`. -/
theorem claim_C1_witness :
    (docClean.images ≠ [] ∧ (docClean.images.map SrcImage.id).Nodup ∧
        (∀ i ∈ docClean.images, baseName i.file_name = i.file_name) ∧
        (∀ i ∈ docClean.images, i.file_name ∈ ["a.jpg"]) ∧
        ∀ a ∈ docClean.anns, a.image_id ∈ docClean.images.map SrcImage.id) ∧
      ∃ doc : CocoDoc,
        (extractModel (ingestDoc docClean) ["a.jpg"] none none
            "out" "train" 0).outcome = .ok doc ∧
          doc.images = docClean.images.map (fun i => toOutImage (ingestImage i)) ∧
          List.Perm doc.anns
            (docClean.anns.map (fun a => decodeAnn (ingestAnn a))) ∧
          doc.categories = docClean.categories.map ingestCategory :=
  ⟨⟨by decide, by decide, by decide, by decide, by decide⟩,
    claim_C1_roundtrip_normalized docClean ["a.jpg"] "out" "train" 0
      (by decide) (by decide) (by decide) (by decide) (by decide)⟩
